import Mathlib

/-!
Verification of the merge algorithm of `netlify/functions/sync.js`
(spaced-revision app synchronization endpoint).

JavaScript objects are modelled as association lists `List (String × V)`
with unique keys (JavaScript objects cannot hold two properties with the
same name); the well-formedness predicate `Obj.WF` records that key lists
are duplicate-free.  Property read (`o[k]`) returns the value at the first
matching key; property write (`o[k] = v`) updates the entry in place when
the key exists and appends a fresh entry otherwise, exactly as JavaScript
preserves insertion order.  Numbers are modelled as integers.
-/

namespace SyncSpec

/-- A JavaScript object with property values of type `V`. -/
abbrev Obj (V : Type) : Type := List (String × V)

/-- Property read `o[k]`: value at the first entry whose key is `k`. -/
def Obj.get {V : Type} : Obj V → String → Option V
  | [], _ => none
  | (k, v) :: rest, q => if k = q then some v else Obj.get rest q

/-- Property write `o[k] = v`: update the existing entry in place, else
append a new entry (JavaScript insertion order). -/
def Obj.set {V : Type} : Obj V → String → V → Obj V
  | [], k, v => [(k, v)]
  | (k', v') :: rest, k, v =>
    if k' = k then (k, v) :: rest else (k', v') :: Obj.set rest k v

/-- `Object.keys o`. -/
def Obj.keys {V : Type} (o : Obj V) : List String := o.map Prod.fst

/-- A real JavaScript object: no duplicate property names. -/
def Obj.WF {V : Type} (o : Obj V) : Prop := (Obj.keys o).Nodup

instance {V : Type} (o : Obj V) : Decidable (Obj.WF o) := by
  unfold Obj.WF; infer_instance

/-- A player profile: the merge only inspects the numeric `totalXP`
property (which a client may omit) and otherwise copies the profile
wholesale; the remaining properties are abstracted as `rest`. -/
structure Profile (V : Type) where
  totalXP : Option Int
  rest : V
deriving DecidableEq

/-- A reported-question record: the merge only inspects `reportId` and
otherwise copies the record wholesale. -/
structure Report (V : Type) where
  reportId : String
  content : V
deriving DecidableEq

/-- A snapshot document as submitted by a client or read from the store.
`sync.js` treats a missing top-level field exactly like an empty one
(object spread of `undefined` adds nothing, and every field access is
guarded by `|| {}` / `|| []` / optional chaining), so absent fields are
modelled as empty mappings and sequences. -/
structure Doc (V : Type) where
  questionSets : Obj V
  playerProfiles : Obj (Profile V)
  dailyRevisionScores : Obj (Obj Int)
  practiceHistory : Obj V
  revisionProgress : Obj (Obj V)
  reportedQuestions : List (Report V)
deriving DecidableEq

/-- The document `sync.js` uses when the store holds nothing
(`findOne(...) || {}`) or when a client omits every field. -/
def emptyDoc {V : Type} : Doc V :=
  { questionSets := []
    playerProfiles := []
    dailyRevisionScores := []
    practiceHistory := []
    revisionProgress := []
    reportedQuestions := [] }

/-- All object fields of the document, including the nested per-date and
per-player objects, have duplicate-free keys — true of every JavaScript
object. -/
def Doc.WF {V : Type} (d : Doc V) : Prop :=
  Obj.WF d.questionSets ∧
  Obj.WF d.playerProfiles ∧
  Obj.WF d.dailyRevisionScores ∧
  (∀ kv ∈ d.dailyRevisionScores, Obj.WF kv.2) ∧
  Obj.WF d.practiceHistory ∧
  Obj.WF d.revisionProgress ∧
  (∀ kv ∈ d.revisionProgress, Obj.WF kv.2)

instance {V : Type} (d : Doc V) : Decidable (Doc.WF d) := by
  unfold Doc.WF; infer_instance

/-- JavaScript object spread `{...a, ...b}`: start from `a` and write each
entry of `b` in order.  Also models the inner `revisionProgress` loop,
which assigns `merged[player][key] = incoming[player][key]` for every key
of `incoming[player]`. -/
def spread {V : Type} (a b : Obj V) : Obj V :=
  b.foldl (fun acc kv => Obj.set acc kv.1 kv.2) a

/-- The replacement test of the player-profile merge
(`sync.js` line 91): `!existingPlayer || (incomingPlayer.totalXP >
(existingPlayer.totalXP || 0))` — here just the XP comparison; a missing
incoming `totalXP` compares as `undefined > x`, which is false. -/
def xpGreater {V : Type} (incomingP existingP : Profile V) : Bool :=
  match incomingP.totalXP with
  | none => false
  | some x => decide (Option.getD existingP.totalXP 0 < x)

/-- `sync.js` lines 88-96: for every player of `incoming`, replace the
merged entry by the incoming profile when the player is absent from the
stored profiles or the incoming XP is strictly greater. -/
def mergeProfiles {V : Type} (existing incoming : Obj (Profile V)) :
    Obj (Profile V) :=
  incoming.foldl
    (fun acc kv =>
      match Obj.get existing kv.1 with
      | none => Obj.set acc kv.1 kv.2
      | some ex => if xpGreater kv.2 ex then Obj.set acc kv.1 kv.2 else acc)
    existing

/-- Inner loop of the daily-score merge (`sync.js` lines 103-107):
`merged[date][player] = (merged[date][player] || 0) + incoming[date][player]`. -/
def addScores (base inc : Obj Int) : Obj Int :=
  inc.foldl
    (fun ia kv => Obj.set ia kv.1 (Option.getD (Obj.get ia kv.1) 0 + kv.2))
    base

/-- `sync.js` lines 98-108: for every date of `incoming`, accumulate the
incoming per-player scores onto the merged per-player scores for that
date (an absent date starts from the empty object). -/
def mergeDaily (existing incoming : Obj (Obj Int)) : Obj (Obj Int) :=
  incoming.foldl
    (fun acc kv =>
      Obj.set acc kv.1 (addScores (Option.getD (Obj.get acc kv.1) []) kv.2))
    existing

/-- `sync.js` lines 110-115: insert an incoming practice-history record
only when its key is absent from the merged map. -/
def mergeHistory {V : Type} (existing incoming : Obj V) : Obj V :=
  incoming.foldl
    (fun acc kv =>
      if (Obj.get acc kv.1).isSome then acc else Obj.set acc kv.1 kv.2)
    existing

/-- `sync.js` lines 117-125: for every player of `incoming`, write every
incoming `(player, key)` progress value into the merged map — the
assignment is unconditional, so incoming wins on conflicts. -/
def mergeRevision {V : Type} (existing incoming : Obj (Obj V)) :
    Obj (Obj V) :=
  incoming.foldl
    (fun acc kv =>
      Obj.set acc kv.1 (spread (Option.getD (Obj.get acc kv.1) []) kv.2))
    existing

/-- `sync.js` lines 127-135: append each incoming report unless a record
with the same `reportId` is already in the accumulated sequence. -/
def mergeReports {V : Type} (existing incoming : List (Report V)) :
    List (Report V) :=
  incoming.foldl
    (fun acc r =>
      if acc.any (fun e => e.reportId == r.reportId) then acc
      else acc ++ [r])
    existing

/-- The document written back by a POST (`mergedData`, `sync.js`
lines 75-86 plus the five merge loops). -/
structure MergedData (V : Type) where
  _id : String
  questionSets : Obj V
  playerProfiles : Obj (Profile V)
  dailyRevisionScores : Obj (Obj Int)
  practiceHistory : Obj V
  revisionProgress : Obj (Obj V)
  reportedQuestions : List (Report V)
  lastUpdated : String
deriving DecidableEq

/-- The merge performed by the POST branch of the handler: `existingOpt`
is the result of `findOne` at the fixed id (`|| {}` when absent),
`incoming` the parsed request body, `now` the current timestamp. -/
def mergePost {V : Type} (existingOpt : Option (Doc V)) (incoming : Doc V)
    (now : String) : MergedData V :=
  let existingData := Option.getD existingOpt emptyDoc
  { _id := "main"
    questionSets := spread existingData.questionSets incoming.questionSets
    playerProfiles :=
      mergeProfiles existingData.playerProfiles incoming.playerProfiles
    dailyRevisionScores :=
      mergeDaily existingData.dailyRevisionScores incoming.dailyRevisionScores
    practiceHistory :=
      mergeHistory existingData.practiceHistory incoming.practiceHistory
    revisionProgress :=
      mergeRevision existingData.revisionProgress incoming.revisionProgress
    reportedQuestions :=
      mergeReports existingData.reportedQuestions incoming.reportedQuestions
    lastUpdated := now }

/-- The stored document a later request reads back after an upsert. -/
def MergedData.toDoc {V : Type} (m : MergedData V) : Doc V :=
  { questionSets := m.questionSets
    playerProfiles := m.playerProfiles
    dailyRevisionScores := m.dailyRevisionScores
    practiceHistory := m.practiceHistory
    revisionProgress := m.revisionProgress
    reportedQuestions := m.reportedQuestions }

/-- Nested read `m[p][k]` on a two-level object. -/
def get2 {V : Type} (m : Obj (Obj V)) (p k : String) : Option V :=
  match Obj.get m p with
  | none => none
  | some inner => Obj.get inner k

/-- The response bodies `sync.js` can produce (JSON payloads abstracted
by their construction site). -/
inductive Body (V : Type) where
  | emptyBody : Body V
  | emptyStructure (lastUpdated : String) : Body V
  | storedData (d : MergedData V) : Body V
  | syncSuccess (players sets : Nat) : Body V
  | methodNotAllowed : Body V
deriving DecidableEq

/-- Observable outcome of one handler invocation: HTTP status, response
headers, response body, whether the database was contacted at all
(`connectToDatabase` runs only after the OPTIONS early return), and the
document written by `updateOne` (`none` when nothing is written). -/
structure HandlerResult (V : Type) where
  statusCode : Nat
  headers : List (String × String)
  body : Body V
  dbConnected : Bool
  dbWrite : Option (MergedData V)
deriving DecidableEq

/-- The CORS headers attached to every response (`sync.js` lines 18-22). -/
def corsHeaders : List (String × String) :=
  [("Access-Control-Allow-Origin", "*"),
   ("Access-Control-Allow-Headers", "Content-Type"),
   ("Access-Control-Allow-Methods", "GET, POST, OPTIONS")]

/-- The method dispatch of `exports.handler`: OPTIONS answers before any
database access; GET returns the stored document or an empty structure;
POST merges and upserts; anything else is 405.  `stored` is the current
content of the `app_data` collection at the fixed id, `incoming` the
parsed POST body (used only by POST). -/
def handler {V : Type} (method : String) (stored : Option (MergedData V))
    (incoming : Doc V) (now : String) : HandlerResult V :=
  if method = "OPTIONS" then
    { statusCode := 200, headers := corsHeaders, body := Body.emptyBody
      dbConnected := false, dbWrite := none }
  else if method = "GET" then
    match stored with
    | none =>
      { statusCode := 200, headers := corsHeaders
        body := Body.emptyStructure now, dbConnected := true
        dbWrite := none }
    | some d =>
      { statusCode := 200, headers := corsHeaders, body := Body.storedData d
        dbConnected := true, dbWrite := none }
  else if method = "POST" then
    let merged := mergePost (Option.map MergedData.toDoc stored) incoming now
    { statusCode := 200, headers := corsHeaders
      body := Body.syncSuccess (Obj.keys merged.playerProfiles).length
        (Obj.keys merged.questionSets).length
      dbConnected := true, dbWrite := some merged }
  else
    { statusCode := 405, headers := corsHeaders
      body := Body.methodNotAllowed, dbConnected := true, dbWrite := none }

def c2Stored : Doc String :=
  { emptyDoc with practiceHistory := [("a1", "oldRecord")] }

def c2Incoming : Doc String :=
  { emptyDoc with practiceHistory := [("a1", "newRecord"), ("a2", "fresh")] }

def c3Stored : Doc String :=
  { emptyDoc with dailyRevisionScores := [("2024-01-01", [("alice", 5)])] }

def c3Incoming : Doc String :=
  { emptyDoc with dailyRevisionScores := [("2024-01-01", [("alice", 3)])] }

def c8Stored : Doc String :=
  { emptyDoc with questionSets := [("s1", "oldSet"), ("s3", "keep")] }

def c8Incoming : Doc String :=
  { emptyDoc with questionSets := [("s1", "newSet"), ("s2", "added")] }

def c1Stored : Doc String :=
  { emptyDoc with revisionProgress := [("alice", [("q1", "A")])] }

def c1Incoming : Doc String :=
  { emptyDoc with revisionProgress := [("alice", [("q1", "B")])] }

/-- Every profile in the object carries a numeric `totalXP` (the premise
of C4: documents with numeric totalXP values). -/
def allXP {V : Type} (profiles : Obj (Profile V)) : Prop :=
  ∀ kv ∈ profiles, (kv.2.totalXP).isSome

instance {V : Type} (profiles : Obj (Profile V)) :
    Decidable (allXP profiles) := by
  unfold allXP; infer_instance

def c4Stored : Doc String :=
  { emptyDoc with
    playerProfiles := [("alice", { totalXP := some 100, rest := "pa" })] }

def c4Incoming : Doc String :=
  { emptyDoc with
    playerProfiles := [("alice", { totalXP := some 80, rest := "pa2" }),
      ("bob", { totalXP := some 50, rest := "pb" })] }

def c5Stored : Doc String :=
  { emptyDoc with
    reportedQuestions := [{ reportId := "r1", content := "old" }] }

def c5Incoming : Doc String :=
  { emptyDoc with
    reportedQuestions := [{ reportId := "r1", content := "new" },
      { reportId := "r2", content := "x" }] }

def c7Incoming : Doc String :=
  { emptyDoc with
    reportedQuestions := [{ reportId := "r", content := "a" },
      { reportId := "r", content := "b" }] }

def c7wIncoming : Doc String :=
  { questionSets := [("s", "set")]
    playerProfiles := [("alice", { totalXP := some 10, rest := "pa" })]
    dailyRevisionScores := [("d", [("alice", 4)])]
    practiceHistory := [("k", "rec")]
    revisionProgress := [("alice", [("q", "done")])]
    reportedQuestions := [{ reportId := "r1", content := "x" }] }

def c6Incoming : Doc String :=
  { emptyDoc with dailyRevisionScores := [("d", [("p", 0)])] }

def c6wIncoming : Doc String :=
  { emptyDoc with
    dailyRevisionScores := [("d", [("p", 3)])]
    practiceHistory := [("k", "rec")] }

theorem Obj.get_set {V : Type} (o : Obj V) (k q : String) (v : V) :
    Obj.get (Obj.set o k v) q = if k = q then some v else Obj.get o q := by
  induction o with
  | nil =>
    by_cases h : k = q <;> simp [Obj.set, Obj.get, h]
  | cons kv rest ih =>
    obtain ⟨k', v'⟩ := kv
    by_cases h1 : k' = k
    · subst h1
      by_cases h2 : k' = q <;> simp [Obj.set, Obj.get, h2]
    · by_cases h2 : k' = q
      · subst h2
        have : ¬ k = k' := fun h => h1 h.symm
        simp [Obj.set, Obj.get, h1, this]
      · simp [Obj.set, Obj.get, h1, h2, ih]

theorem Obj.get_eq_none_iff {V : Type} (o : Obj V) (q : String) :
    Obj.get o q = none ↔ q ∉ Obj.keys o := by
  induction o with
  | nil => simp [Obj.get, Obj.keys]
  | cons kv rest ih =>
    obtain ⟨k, v⟩ := kv
    by_cases h : k = q
    · subst h; simp [Obj.get, Obj.keys]
    · have hne : q ≠ k := fun h' => h h'.symm
      simp [Obj.get, Obj.keys, h, hne, ih]

theorem Obj.get_of_mem {V : Type} {o : Obj V} {k : String} {v : V}
    (hwf : Obj.WF o) (hmem : (k, v) ∈ o) : Obj.get o k = some v := by
  induction o with
  | nil => cases hmem
  | cons kv rest ih =>
    obtain ⟨k', v'⟩ := kv
    rcases List.mem_cons.mp hmem with h | h
    · cases h; simp [Obj.get]
    · have hwf' : Obj.WF rest := (List.nodup_cons.mp hwf).2
      have hk : k' ∉ Obj.keys rest := by
        simpa [Obj.keys] using (List.nodup_cons.mp hwf).1
      have hne : k' ≠ k := by
        intro he; subst he
        exact hk (List.mem_map.mpr ⟨(k', v), h, rfl⟩)
      simp [Obj.get, hne, ih hwf' h]

theorem Obj.mem_of_get {V : Type} {o : Obj V} {k : String} {v : V}
    (h : Obj.get o k = some v) : (k, v) ∈ o := by
  induction o with
  | nil => simp [Obj.get] at h
  | cons kv rest ih =>
    obtain ⟨k', v'⟩ := kv
    by_cases he : k' = k
    · subst he
      simp [Obj.get] at h
      simp [h]
    · simp [Obj.get, he] at h
      exact List.mem_cons_of_mem _ (ih h)

theorem Obj.set_self {V : Type} {o : Obj V} {k : String} {v : V}
    (h : Obj.get o k = some v) : Obj.set o k v = o := by
  induction o with
  | nil => simp [Obj.get] at h
  | cons kv rest ih =>
    obtain ⟨k', v'⟩ := kv
    by_cases he : k' = k
    · subst he
      simp [Obj.get] at h
      simp [Obj.set, h]
    · simp [Obj.get, he] at h
      simp [Obj.set, he, ih h]

theorem Obj.set_append {V : Type} {o : Obj V} {k : String} (v : V)
    (h : k ∉ Obj.keys o) : Obj.set o k v = o ++ [(k, v)] := by
  induction o with
  | nil => simp [Obj.set]
  | cons kv rest ih =>
    obtain ⟨k', v'⟩ := kv
    simp [Obj.keys] at h
    have hne : k' ≠ k := fun he => h.1 he.symm
    simp [Obj.set, hne, ih (by simpa [Obj.keys] using h.2)]

/-!
Each `forEach` loop over `Object.keys(incoming)` in `sync.js` folds a step
function over incoming's entries; every step reads and writes the
accumulator only at the entry's own key.  The next two lemmas characterise
such folds at a single key: a key not occurring in the incoming entries is
untouched, and a key occurring once (JavaScript objects have no duplicate
keys) is transformed by the step's value function exactly once.
-/

section FoldLemmas

variable {α β : Type} (step : Obj α → String × β → Obj α)
  (sv : String → Option α → β → Option α)

theorem foldl_get_of_not_mem
    (hstep : ∀ acc kv q, Obj.get (step acc kv) q =
      if kv.1 = q then sv q (Obj.get acc q) kv.2 else Obj.get acc q)
    (l : List (String × β)) (acc : Obj α) (q : String)
    (hq : q ∉ l.map Prod.fst) :
    Obj.get (l.foldl step acc) q = Obj.get acc q := by
  induction l generalizing acc with
  | nil => rfl
  | cons kv rest ih =>
    simp only [List.map_cons, List.mem_cons] at hq
    push_neg at hq
    rw [List.foldl_cons, ih _ hq.2, hstep, if_neg (Ne.symm hq.1)]

theorem foldl_get_of_nodup
    (hstep : ∀ acc kv q, Obj.get (step acc kv) q =
      if kv.1 = q then sv q (Obj.get acc q) kv.2 else Obj.get acc q)
    (l : List (String × β)) (acc : Obj α) (q : String) (v : β)
    (hnd : (l.map Prod.fst).Nodup) (hv : Obj.get l q = some v) :
    Obj.get (l.foldl step acc) q = sv q (Obj.get acc q) v := by
  induction l generalizing acc with
  | nil => simp [Obj.get] at hv
  | cons kv rest ih =>
    obtain ⟨k0, v0⟩ := kv
    simp only [List.map_cons, List.nodup_cons] at hnd
    by_cases h : k0 = q
    · subst h
      have hv0 : v = v0 := by simpa [Obj.get] using hv.symm
      subst hv0
      rw [List.foldl_cons,
        foldl_get_of_not_mem step sv hstep rest _ k0 hnd.1, hstep, if_pos rfl]
    · have hv' : Obj.get rest q = some v := by simpa [Obj.get, h] using hv
      rw [List.foldl_cons, ih _ hnd.2 hv', hstep, if_neg h]

theorem foldl_fixed {γ δ : Type} (f : γ → δ → γ) (l : List δ) (a : γ)
    (h : ∀ x ∈ l, f a x = a) : l.foldl f a = a := by
  induction l with
  | nil => rfl
  | cons x rest ih =>
    rw [List.foldl_cons, h x (List.mem_cons_self _ _)]
    exact ih fun y hy => h y (List.mem_cons_of_mem _ hy)

end FoldLemmas

/-!  Pointwise characterisation of each per-field merge. -/

theorem spread_get_none {V : Type} (a b : Obj V) (q : String)
    (h : Obj.get b q = none) : Obj.get (spread a b) q = Obj.get a q := by
  refine foldl_get_of_not_mem _ (fun _ _ v => some v) ?_ b a q
    ((Obj.get_eq_none_iff b q).mp h)
  intro acc kv q
  exact Obj.get_set acc kv.1 q kv.2

theorem spread_get_some {V : Type} (a : Obj V) {b : Obj V} {q : String}
    {v : V} (hwf : Obj.WF b) (h : Obj.get b q = some v) :
    Obj.get (spread a b) q = some v := by
  refine foldl_get_of_nodup _ (fun _ _ v => some v) ?_ b a q v hwf h
  intro acc kv q
  exact Obj.get_set acc kv.1 q kv.2

theorem mergeProfiles_get_none {V : Type} (ex inc : Obj (Profile V))
    (q : String) (h : Obj.get inc q = none) :
    Obj.get (mergeProfiles ex inc) q = Obj.get ex q := by
  refine foldl_get_of_not_mem _
    (fun q cur v =>
      match Obj.get ex q with
      | none => some v
      | some ep => if xpGreater v ep then some v else cur) ?_ inc ex q
    ((Obj.get_eq_none_iff inc q).mp h)
  intro acc kv q
  by_cases he : kv.1 = q
  · subst he
    cases hex : Obj.get ex kv.1 with
    | none => simp [hex, Obj.get_set]
    | some ep =>
      by_cases hg : xpGreater kv.2 ep <;> simp [hex, hg, Obj.get_set]
  · cases hex : Obj.get ex kv.1 with
    | none => simp [hex, Obj.get_set, he]
    | some ep =>
      by_cases hg : xpGreater kv.2 ep <;> simp [hex, hg, Obj.get_set, he]

theorem mergeProfiles_get_some {V : Type} (ex : Obj (Profile V))
    {inc : Obj (Profile V)} {q : String} {ip : Profile V}
    (hwf : Obj.WF inc) (h : Obj.get inc q = some ip) :
    Obj.get (mergeProfiles ex inc) q =
      match Obj.get ex q with
      | none => some ip
      | some ep => if xpGreater ip ep then some ip else some ep := by
  have := foldl_get_of_nodup
    (fun acc kv =>
      match Obj.get ex kv.1 with
      | none => Obj.set acc kv.1 kv.2
      | some e => if xpGreater kv.2 e then Obj.set acc kv.1 kv.2 else acc)
    (fun q cur v =>
      match Obj.get ex q with
      | none => some v
      | some ep => if xpGreater v ep then some v else cur) ?_ inc ex q ip hwf h
  · rw [mergeProfiles, this]
    cases hex : Obj.get ex q with
    | none => simp [hex]
    | some ep => by_cases hg : xpGreater ip ep <;> simp [hg, hex]
  · intro acc kv q
    by_cases he : kv.1 = q
    · subst he
      cases hex : Obj.get ex kv.1 with
      | none => simp [hex, Obj.get_set]
      | some ep =>
        by_cases hg : xpGreater kv.2 ep <;> simp [hex, hg, Obj.get_set]
    · cases hex : Obj.get ex kv.1 with
      | none => simp [hex, Obj.get_set, he]
      | some ep =>
        by_cases hg : xpGreater kv.2 ep <;> simp [hex, hg, Obj.get_set, he]

theorem addScores_get_none (base inc : Obj Int) (q : String)
    (h : Obj.get inc q = none) :
    Obj.get (addScores base inc) q = Obj.get base q := by
  refine foldl_get_of_not_mem _
    (fun _ cur v => some (Option.getD cur 0 + v)) ?_ inc base q
    ((Obj.get_eq_none_iff inc q).mp h)
  intro acc kv q
  by_cases he : kv.1 = q
  · subst he; simp [Obj.get_set]
  · simp [Obj.get_set, he]

theorem addScores_get_some (base : Obj Int) {inc : Obj Int} {q : String}
    {v : Int} (hwf : Obj.WF inc) (h : Obj.get inc q = some v) :
    Obj.get (addScores base inc) q =
      some (Option.getD (Obj.get base q) 0 + v) := by
  refine foldl_get_of_nodup _
    (fun _ cur v => some (Option.getD cur 0 + v)) ?_ inc base q v hwf h
  intro acc kv q
  by_cases he : kv.1 = q
  · subst he; simp [Obj.get_set]
  · simp [Obj.get_set, he]

theorem mergeDaily_get_none (ex inc : Obj (Obj Int)) (q : String)
    (h : Obj.get inc q = none) :
    Obj.get (mergeDaily ex inc) q = Obj.get ex q := by
  refine foldl_get_of_not_mem _
    (fun _ cur v => some (addScores (Option.getD cur []) v)) ?_ inc ex q
    ((Obj.get_eq_none_iff inc q).mp h)
  intro acc kv q
  by_cases he : kv.1 = q
  · subst he; simp [Obj.get_set]
  · simp [Obj.get_set, he]

theorem mergeDaily_get_some (ex : Obj (Obj Int)) {inc : Obj (Obj Int)}
    {q : String} {entries : Obj Int} (hwf : Obj.WF inc)
    (h : Obj.get inc q = some entries) :
    Obj.get (mergeDaily ex inc) q =
      some (addScores (Option.getD (Obj.get ex q) []) entries) := by
  refine foldl_get_of_nodup _
    (fun _ cur v => some (addScores (Option.getD cur []) v)) ?_
    inc ex q entries hwf h
  intro acc kv q
  by_cases he : kv.1 = q
  · subst he; simp [Obj.get_set]
  · simp [Obj.get_set, he]

theorem mergeHistory_get_none {V : Type} (ex inc : Obj V) (q : String)
    (h : Obj.get inc q = none) :
    Obj.get (mergeHistory ex inc) q = Obj.get ex q := by
  refine foldl_get_of_not_mem _
    (fun _ cur v => if cur.isSome then cur else some v) ?_ inc ex q
    ((Obj.get_eq_none_iff inc q).mp h)
  intro acc kv q
  by_cases hs : (Obj.get acc kv.1).isSome
  · by_cases he : kv.1 = q
    · subst he; simp [mergeHistory, hs]
    · simp [mergeHistory, hs, he]
  · by_cases he : kv.1 = q
    · subst he; simp [mergeHistory, hs, Obj.get_set]
    · simp [mergeHistory, hs, Obj.get_set, he]

theorem mergeHistory_get_some {V : Type} (ex : Obj V) {inc : Obj V}
    {q : String} {v : V} (hwf : Obj.WF inc) (h : Obj.get inc q = some v) :
    Obj.get (mergeHistory ex inc) q =
      if (Obj.get ex q).isSome then Obj.get ex q else some v := by
  refine foldl_get_of_nodup _
    (fun _ cur v => if cur.isSome then cur else some v) ?_ inc ex q v hwf h
  intro acc kv q
  by_cases hs : (Obj.get acc kv.1).isSome
  · by_cases he : kv.1 = q
    · subst he; simp [hs]
    · simp [hs, he]
  · by_cases he : kv.1 = q
    · subst he; simp [hs, Obj.get_set]
    · simp [hs, Obj.get_set, he]

theorem mergeRevision_get_none {V : Type} (ex inc : Obj (Obj V))
    (q : String) (h : Obj.get inc q = none) :
    Obj.get (mergeRevision ex inc) q = Obj.get ex q := by
  refine foldl_get_of_not_mem _
    (fun _ cur v => some (spread (Option.getD cur []) v)) ?_ inc ex q
    ((Obj.get_eq_none_iff inc q).mp h)
  intro acc kv q
  by_cases he : kv.1 = q
  · subst he; simp [Obj.get_set]
  · simp [Obj.get_set, he]

theorem mergeRevision_get_some {V : Type} (ex : Obj (Obj V))
    {inc : Obj (Obj V)} {q : String} {inner : Obj V} (hwf : Obj.WF inc)
    (h : Obj.get inc q = some inner) :
    Obj.get (mergeRevision ex inc) q =
      some (spread (Option.getD (Obj.get ex q) []) inner) := by
  refine foldl_get_of_nodup _
    (fun _ cur v => some (spread (Option.getD cur []) v)) ?_
    inc ex q inner hwf h
  intro acc kv q
  by_cases he : kv.1 = q
  · subst he; simp [Obj.get_set]
  · simp [Obj.get_set, he]

/-!  Structure of the reported-questions merge. -/

theorem any_reportId_eq_true {V : Type} (acc : List (Report V)) (q : String) :
    acc.any (fun e => e.reportId == q) = true ↔
      ∃ s ∈ acc, s.reportId = q := by
  simp [List.any_eq_true]

theorem mergeReports_cons {V : Type} (acc : List (Report V)) (r : Report V)
    (rest : List (Report V)) :
    mergeReports acc (r :: rest) =
      mergeReports
        (if acc.any (fun e => e.reportId == r.reportId) then acc
         else acc ++ [r]) rest := rfl

theorem mergeReports_structure {V : Type} (inc : List (Report V)) :
    ∀ acc : List (Report V), ∃ fresh,
      mergeReports acc inc = acc ++ fresh ∧ fresh.Sublist inc ∧
      ∀ r ∈ fresh, ∀ s ∈ acc, r.reportId ≠ s.reportId := by
  induction inc with
  | nil =>
    intro acc
    exact ⟨[], by simp [mergeReports], List.nil_sublist _, by simp⟩
  | cons r rest ih =>
    intro acc
    by_cases h : acc.any (fun e => e.reportId == r.reportId)
    · obtain ⟨fresh, heq, hsub, hids⟩ := ih acc
      refine ⟨fresh, ?_, hsub.cons _, hids⟩
      rw [mergeReports_cons, if_pos h]
      exact heq
    · obtain ⟨fresh, heq, hsub, hids⟩ := ih (acc ++ [r])
      refine ⟨r :: fresh, ?_, hsub.cons₂ _, ?_⟩
      · rw [mergeReports_cons, if_neg h, heq, List.append_assoc,
          List.singleton_append]
      · intro x hx s hs
        rcases List.mem_cons.mp hx with hx | hx
        · subst hx
          intro hcontra
          exact h ((any_reportId_eq_true acc x.reportId).mpr
            ⟨s, hs, hcontra.symm⟩)
        · exact hids x hx s (List.mem_append_left _ hs)

theorem mergeReports_covers {V : Type} (inc : List (Report V)) :
    ∀ acc : List (Report V), ∀ r ∈ inc,
      ∃ e ∈ mergeReports acc inc, e.reportId = r.reportId := by
  induction inc with
  | nil => intro acc r hr; cases hr
  | cons r0 rest ih =>
    intro acc r hr
    by_cases h : acc.any (fun e => e.reportId == r0.reportId)
    · have heq : mergeReports acc (r0 :: rest) = mergeReports acc rest := by
        rw [mergeReports_cons, if_pos h]
      rcases List.mem_cons.mp hr with hr | hr
      · subst hr
        obtain ⟨s, hs, hsid⟩ := (any_reportId_eq_true acc r.reportId).mp h
        obtain ⟨fresh, hfr, -, -⟩ := mergeReports_structure rest acc
        exact ⟨s, by rw [heq, hfr]; exact List.mem_append_left _ hs, hsid⟩
      · rw [heq]; exact ih acc r hr
    · have heq : mergeReports acc (r0 :: rest) =
          mergeReports (acc ++ [r0]) rest := by
        rw [mergeReports_cons, if_neg h]
      rcases List.mem_cons.mp hr with hr | hr
      · subst hr
        obtain ⟨fresh, hfr, -, -⟩ := mergeReports_structure rest (acc ++ [r])
        refine ⟨r, ?_, rfl⟩
        rw [heq, hfr]
        exact List.mem_append_left _ (by simp)
      · rw [heq]; exact ih (acc ++ [r0]) r hr

theorem mergeReports_nodup_ids {V : Type} (inc : List (Report V)) :
    ∀ acc : List (Report V), (acc.map Report.reportId).Nodup →
      ((mergeReports acc inc).map Report.reportId).Nodup := by
  induction inc with
  | nil => intro acc h; simpa [mergeReports] using h
  | cons r rest ih =>
    intro acc hacc
    by_cases h : acc.any (fun e => e.reportId == r.reportId)
    · rw [mergeReports_cons, if_pos h]
      exact ih acc hacc
    · rw [mergeReports_cons, if_neg h]
      refine ih (acc ++ [r]) ?_
      rw [List.map_append, List.map_singleton]
      refine List.Nodup.append hacc (List.nodup_singleton _) ?_
      intro x hx hx1
      rcases List.mem_map.mp hx with ⟨s, hs, hsid⟩
      have hx2 : x = r.reportId := List.mem_singleton.mp hx1
      exact h ((any_reportId_eq_true acc r.reportId).mpr
        ⟨s, hs, hsid.trans hx2⟩)

/-!  Merging into an empty or key-disjoint base appends incoming as is. -/

theorem Obj.keys_cons {V : Type} (kv : String × V) (rest : Obj V) :
    Obj.keys (kv :: rest) = kv.1 :: Obj.keys rest := rfl

theorem Obj.keys_append {V : Type} (a b : Obj V) :
    Obj.keys (a ++ b) = Obj.keys a ++ Obj.keys b := by
  simp [Obj.keys]

theorem spread_append {V : Type} (b : Obj V) :
    ∀ a : Obj V, Obj.WF b → (∀ k ∈ Obj.keys b, k ∉ Obj.keys a) →
      spread a b = a ++ b := by
  induction b with
  | nil => intro a _ _; simp [spread]
  | cons kv rest ih =>
    intro a hwf hdis
    have hwf' : (kv.1 :: Obj.keys rest).Nodup := by
      rw [← Obj.keys_cons]; exact hwf
    have h1 : kv.1 ∉ Obj.keys a :=
      hdis kv.1 (by rw [Obj.keys_cons]; exact List.mem_cons_self _ _)
    have hdis2 : ∀ k ∈ Obj.keys rest, k ∉ Obj.keys (a ++ [kv]) := by
      intro k hk hmem
      rw [Obj.keys_append] at hmem
      rcases List.mem_append.mp hmem with hmem | hmem
      · exact hdis k (by rw [Obj.keys_cons]; exact List.mem_cons_of_mem _ hk)
          hmem
      · have hk1 : k = kv.1 := by
          simpa [Obj.keys] using hmem
        exact (List.nodup_cons.mp hwf').1 (hk1 ▸ hk)
    have hstep : spread a (kv :: rest) = spread (a ++ [kv]) rest := by
      simp [spread, Obj.set_append kv.2 h1]
    rw [hstep, ih (a ++ [kv]) (List.nodup_cons.mp hwf').2 hdis2,
      List.append_assoc, List.singleton_append]

theorem spread_nil {V : Type} (b : Obj V) (hwf : Obj.WF b) :
    spread [] b = b := by
  simpa using spread_append b [] hwf (by simp [Obj.keys])

theorem addScores_disjoint (inc : Obj Int) :
    ∀ base : Obj Int, Obj.WF inc →
      (∀ k ∈ Obj.keys inc, k ∉ Obj.keys base) →
      addScores base inc = base ++ inc := by
  induction inc with
  | nil => intro base _ _; simp [addScores]
  | cons kv rest ih =>
    intro base hwf hdis
    have hwf' : (kv.1 :: Obj.keys rest).Nodup := by
      rw [← Obj.keys_cons]; exact hwf
    have h1 : kv.1 ∉ Obj.keys base :=
      hdis kv.1 (by rw [Obj.keys_cons]; exact List.mem_cons_self _ _)
    have hget : Obj.get base kv.1 = none := (Obj.get_eq_none_iff _ _).mpr h1
    have hdis2 : ∀ k ∈ Obj.keys rest, k ∉ Obj.keys (base ++ [kv]) := by
      intro k hk hmem
      rw [Obj.keys_append] at hmem
      rcases List.mem_append.mp hmem with hmem | hmem
      · exact hdis k (by rw [Obj.keys_cons]; exact List.mem_cons_of_mem _ hk)
          hmem
      · have hk1 : k = kv.1 := by
          simpa [Obj.keys] using hmem
        exact (List.nodup_cons.mp hwf').1 (hk1 ▸ hk)
    have hstep : addScores base (kv :: rest) =
        addScores (base ++ [kv]) rest := by
      simp [addScores, hget, Obj.set_append _ h1]
    rw [hstep, ih (base ++ [kv]) (List.nodup_cons.mp hwf').2 hdis2,
      List.append_assoc, List.singleton_append]

theorem addScores_nil (inc : Obj Int) (hwf : Obj.WF inc) :
    addScores [] inc = inc := by
  simpa using addScores_disjoint inc [] hwf (by simp [Obj.keys])

/-!  Remaining merges against a key-disjoint (in particular empty) base. -/

theorem mergeProfiles_nil {V : Type} (inc : Obj (Profile V)) :
    mergeProfiles [] inc = spread [] inc := rfl

theorem mergeHistory_disjoint {V : Type} (inc : Obj V) :
    ∀ ex : Obj V, Obj.WF inc → (∀ k ∈ Obj.keys inc, k ∉ Obj.keys ex) →
      mergeHistory ex inc = ex ++ inc := by
  induction inc with
  | nil => intro ex _ _; simp [mergeHistory]
  | cons kv rest ih =>
    intro ex hwf hdis
    have hwf' : (kv.1 :: Obj.keys rest).Nodup := by
      rw [← Obj.keys_cons]; exact hwf
    have h1 : kv.1 ∉ Obj.keys ex :=
      hdis kv.1 (by rw [Obj.keys_cons]; exact List.mem_cons_self _ _)
    have hget : Obj.get ex kv.1 = none := (Obj.get_eq_none_iff _ _).mpr h1
    have hdis2 : ∀ k ∈ Obj.keys rest, k ∉ Obj.keys (ex ++ [kv]) := by
      intro k hk hmem
      rw [Obj.keys_append] at hmem
      rcases List.mem_append.mp hmem with hmem | hmem
      · exact hdis k (by rw [Obj.keys_cons]; exact List.mem_cons_of_mem _ hk)
          hmem
      · have hk1 : k = kv.1 := by
          simpa [Obj.keys] using hmem
        exact (List.nodup_cons.mp hwf').1 (hk1 ▸ hk)
    have hstep : mergeHistory ex (kv :: rest) =
        mergeHistory (ex ++ [kv]) rest := by
      simp [mergeHistory, hget, Obj.set_append _ h1]
    rw [hstep, ih (ex ++ [kv]) (List.nodup_cons.mp hwf').2 hdis2,
      List.append_assoc, List.singleton_append]

theorem mergeDaily_disjoint (inc : Obj (Obj Int)) :
    ∀ ex : Obj (Obj Int), Obj.WF inc → (∀ kv ∈ inc, Obj.WF kv.2) →
      (∀ k ∈ Obj.keys inc, k ∉ Obj.keys ex) →
      mergeDaily ex inc = ex ++ inc := by
  induction inc with
  | nil => intro ex _ _ _; simp [mergeDaily]
  | cons kv rest ih =>
    intro ex hwf hinner hdis
    have hwf' : (kv.1 :: Obj.keys rest).Nodup := by
      rw [← Obj.keys_cons]; exact hwf
    have h1 : kv.1 ∉ Obj.keys ex :=
      hdis kv.1 (by rw [Obj.keys_cons]; exact List.mem_cons_self _ _)
    have hget : Obj.get ex kv.1 = none := (Obj.get_eq_none_iff _ _).mpr h1
    have hdis2 : ∀ k ∈ Obj.keys rest, k ∉ Obj.keys (ex ++ [kv]) := by
      intro k hk hmem
      rw [Obj.keys_append] at hmem
      rcases List.mem_append.mp hmem with hmem | hmem
      · exact hdis k (by rw [Obj.keys_cons]; exact List.mem_cons_of_mem _ hk)
          hmem
      · have hk1 : k = kv.1 := by
          simpa [Obj.keys] using hmem
        exact (List.nodup_cons.mp hwf').1 (hk1 ▸ hk)
    have hin : addScores [] kv.2 = kv.2 :=
      addScores_nil kv.2 (hinner kv (List.mem_cons_self _ _))
    have hstep : mergeDaily ex (kv :: rest) =
        mergeDaily (ex ++ [kv]) rest := by
      simp [mergeDaily, hget, hin, Obj.set_append _ h1]
    rw [hstep, ih (ex ++ [kv]) (List.nodup_cons.mp hwf').2
      (fun x hx => hinner x (List.mem_cons_of_mem _ hx)) hdis2,
      List.append_assoc, List.singleton_append]

theorem mergeRevision_disjoint {V : Type} (inc : Obj (Obj V)) :
    ∀ ex : Obj (Obj V), Obj.WF inc → (∀ kv ∈ inc, Obj.WF kv.2) →
      (∀ k ∈ Obj.keys inc, k ∉ Obj.keys ex) →
      mergeRevision ex inc = ex ++ inc := by
  induction inc with
  | nil => intro ex _ _ _; simp [mergeRevision]
  | cons kv rest ih =>
    intro ex hwf hinner hdis
    have hwf' : (kv.1 :: Obj.keys rest).Nodup := by
      rw [← Obj.keys_cons]; exact hwf
    have h1 : kv.1 ∉ Obj.keys ex :=
      hdis kv.1 (by rw [Obj.keys_cons]; exact List.mem_cons_self _ _)
    have hget : Obj.get ex kv.1 = none := (Obj.get_eq_none_iff _ _).mpr h1
    have hdis2 : ∀ k ∈ Obj.keys rest, k ∉ Obj.keys (ex ++ [kv]) := by
      intro k hk hmem
      rw [Obj.keys_append] at hmem
      rcases List.mem_append.mp hmem with hmem | hmem
      · exact hdis k (by rw [Obj.keys_cons]; exact List.mem_cons_of_mem _ hk)
          hmem
      · have hk1 : k = kv.1 := by
          simpa [Obj.keys] using hmem
        exact (List.nodup_cons.mp hwf').1 (hk1 ▸ hk)
    have hin : spread [] kv.2 = kv.2 :=
      spread_nil kv.2 (hinner kv (List.mem_cons_self _ _))
    have hstep : mergeRevision ex (kv :: rest) =
        mergeRevision (ex ++ [kv]) rest := by
      simp [mergeRevision, hget, hin, Obj.set_append _ h1]
    rw [hstep, ih (ex ++ [kv]) (List.nodup_cons.mp hwf').2
      (fun x hx => hinner x (List.mem_cons_of_mem _ hx)) hdis2,
      List.append_assoc, List.singleton_append]

theorem mergeReports_disjoint {V : Type} (inc : List (Report V)) :
    ∀ acc : List (Report V), (inc.map Report.reportId).Nodup →
      (∀ r ∈ inc, ∀ s ∈ acc, r.reportId ≠ s.reportId) →
      mergeReports acc inc = acc ++ inc := by
  induction inc with
  | nil => intro acc _ _; simp [mergeReports]
  | cons r rest ih =>
    intro acc hnd hdis
    simp only [List.map_cons, List.nodup_cons] at hnd
    have hany : ¬ (acc.any fun e => e.reportId == r.reportId) = true := by
      intro h
      obtain ⟨s, hs, hsid⟩ := (any_reportId_eq_true acc r.reportId).mp h
      exact hdis r (List.mem_cons_self _ _) s hs hsid.symm
    rw [mergeReports_cons, if_neg hany,
      ih (acc ++ [r]) hnd.2 ?_, List.append_assoc, List.singleton_append]
    intro x hx s hs
    rcases List.mem_append.mp hs with hs | hs
    · exact hdis x (List.mem_cons_of_mem _ hx) s hs
    · rcases List.mem_singleton.mp hs with rfl
      intro hcontra
      exact hnd.1 (List.mem_map.mpr ⟨x, hx, hcontra⟩)

/-!  Field projections of the merged document. -/

theorem mergePost_questionSets {V : Type} (s? : Option (Doc V))
    (inc : Doc V) (now : String) :
    (mergePost s? inc now).questionSets =
      spread (Option.getD s? emptyDoc).questionSets inc.questionSets := rfl

theorem mergePost_playerProfiles {V : Type} (s? : Option (Doc V))
    (inc : Doc V) (now : String) :
    (mergePost s? inc now).playerProfiles =
      mergeProfiles (Option.getD s? emptyDoc).playerProfiles
        inc.playerProfiles := rfl

theorem mergePost_dailyRevisionScores {V : Type} (s? : Option (Doc V))
    (inc : Doc V) (now : String) :
    (mergePost s? inc now).dailyRevisionScores =
      mergeDaily (Option.getD s? emptyDoc).dailyRevisionScores
        inc.dailyRevisionScores := rfl

theorem mergePost_practiceHistory {V : Type} (s? : Option (Doc V))
    (inc : Doc V) (now : String) :
    (mergePost s? inc now).practiceHistory =
      mergeHistory (Option.getD s? emptyDoc).practiceHistory
        inc.practiceHistory := rfl

theorem mergePost_revisionProgress {V : Type} (s? : Option (Doc V))
    (inc : Doc V) (now : String) :
    (mergePost s? inc now).revisionProgress =
      mergeRevision (Option.getD s? emptyDoc).revisionProgress
        inc.revisionProgress := rfl

theorem mergePost_reportedQuestions {V : Type} (s? : Option (Doc V))
    (inc : Doc V) (now : String) :
    (mergePost s? inc now).reportedQuestions =
      mergeReports (Option.getD s? emptyDoc).reportedQuestions
        inc.reportedQuestions := rfl

/-- C2: for every key `k` present in `stored.practiceHistory`, the merged
document keeps stored's record at `k` untouched whatever `incoming`
holds there, and keys absent from stored are inserted with incoming's
value (`sync.js` lines 110-115). -/
theorem practiceHistory_permanence {V : Type} (stored? : Option (Doc V))
    (incoming : Doc V) (now : String) (k : String) (hwf : Doc.WF incoming) :
    (∀ v, Obj.get (Option.getD stored? emptyDoc).practiceHistory k = some v →
      Obj.get (mergePost stored? incoming now).practiceHistory k = some v) ∧
    (Obj.get (Option.getD stored? emptyDoc).practiceHistory k = none →
      Obj.get (mergePost stored? incoming now).practiceHistory k =
        Obj.get incoming.practiceHistory k) := by
  have hwfh : Obj.WF incoming.practiceHistory := hwf.2.2.2.2.1
  rw [mergePost_practiceHistory]
  constructor
  · intro v hv
    cases hik : Obj.get incoming.practiceHistory k with
    | none => rw [mergeHistory_get_none _ _ _ hik]; exact hv
    | some w => rw [mergeHistory_get_some _ hwfh hik, hv]; simp
  · intro h0
    cases hik : Obj.get incoming.practiceHistory k with
    | none => rw [mergeHistory_get_none _ _ _ hik]; exact h0
    | some w => rw [mergeHistory_get_some _ hwfh hik, h0]; simp

theorem practiceHistory_permanence_witness :
    Obj.get (mergePost (some c2Stored) c2Incoming "t").practiceHistory "a1" =
      some "oldRecord" :=
  (practiceHistory_permanence (some c2Stored) c2Incoming "t" "a1"
    (by decide)).1 "oldRecord" (by decide)

/-- C3: for every date and player submitted by `incoming`, the merged
daily score is stored's value (0 when absent) plus incoming's value, and
dates or players present only in stored pass through unchanged
(`sync.js` lines 98-108). -/
theorem dailyRevisionScores_accumulate {V : Type} (stored? : Option (Doc V))
    (incoming : Doc V) (now : String) (d p : String) (hwf : Doc.WF incoming) :
    (∀ v : Int, get2 incoming.dailyRevisionScores d p = some v →
      get2 (mergePost stored? incoming now).dailyRevisionScores d p =
        some (Option.getD
          (get2 (Option.getD stored? emptyDoc).dailyRevisionScores d p) 0
          + v)) ∧
    (Obj.get incoming.dailyRevisionScores d = none →
      Obj.get (mergePost stored? incoming now).dailyRevisionScores d =
        Obj.get (Option.getD stored? emptyDoc).dailyRevisionScores d) ∧
    (∀ entries, Obj.get incoming.dailyRevisionScores d = some entries →
      Obj.get entries p = none →
      get2 (mergePost stored? incoming now).dailyRevisionScores d p =
        get2 (Option.getD stored? emptyDoc).dailyRevisionScores d p) := by
  have hwfd : Obj.WF incoming.dailyRevisionScores := hwf.2.2.1
  have hwfi : ∀ kv ∈ incoming.dailyRevisionScores, Obj.WF kv.2 :=
    hwf.2.2.2.1
  refine ⟨?_, ?_, ?_⟩
  · intro v hv
    rcases hid : Obj.get incoming.dailyRevisionScores d with - | entries
    · simp [get2, hid] at hv
    · have hvp : Obj.get entries p = some v := by simpa [get2, hid] using hv
      have hewf : Obj.WF entries := hwfi (d, entries) (Obj.mem_of_get hid)
      rw [get2, mergePost_dailyRevisionScores,
        mergeDaily_get_some _ hwfd hid]
      simp only
      rw [addScores_get_some _ hewf hvp]
      rcases hsd :
          Obj.get (Option.getD stored? emptyDoc).dailyRevisionScores d with
        - | sEntries
      · simp [get2, hsd, Obj.get]
      · simp [get2, hsd]
  · intro h
    rw [mergePost_dailyRevisionScores, mergeDaily_get_none _ _ _ h]
  · intro entries hid hp
    have hewf : Obj.WF entries := hwfi (d, entries) (Obj.mem_of_get hid)
    rw [get2, mergePost_dailyRevisionScores,
      mergeDaily_get_some _ hwfd hid]
    simp only
    rw [addScores_get_none _ _ _ hp]
    rcases hsd :
        Obj.get (Option.getD stored? emptyDoc).dailyRevisionScores d with
      - | sEntries
    · simp [get2, hsd, Obj.get]
    · simp [get2, hsd]

theorem dailyRevisionScores_accumulate_witness :
    get2 (mergePost (some c3Stored) c3Incoming "t").dailyRevisionScores
      "2024-01-01" "alice" = some 8 := by
  have h := (dailyRevisionScores_accumulate (some c3Stored) c3Incoming "t"
    "2024-01-01" "alice" (by decide)).1 3 (by decide)
  rw [h]
  decide

/-- C8: the merged question-set mapping holds every key of stored and
every key of incoming, and on a key collision the incoming value
replaces the stored one (`sync.js` line 78, object spread). -/
theorem questionSets_union {V : Type} (stored? : Option (Doc V))
    (incoming : Doc V) (now : String) (k : String) (hwf : Doc.WF incoming) :
    (∀ v, Obj.get incoming.questionSets k = some v →
      Obj.get (mergePost stored? incoming now).questionSets k = some v) ∧
    (Obj.get incoming.questionSets k = none →
      Obj.get (mergePost stored? incoming now).questionSets k =
        Obj.get (Option.getD stored? emptyDoc).questionSets k) ∧
    ((Obj.get (Option.getD stored? emptyDoc).questionSets k).isSome ∨
      (Obj.get incoming.questionSets k).isSome →
      (Obj.get (mergePost stored? incoming now).questionSets k).isSome) := by
  have hwfq : Obj.WF incoming.questionSets := hwf.1
  rw [mergePost_questionSets]
  refine ⟨?_, ?_, ?_⟩
  · intro v hv
    exact spread_get_some _ hwfq hv
  · intro h
    exact spread_get_none _ _ _ h
  · intro hor
    cases hik : Obj.get incoming.questionSets k with
    | none =>
      rw [spread_get_none _ _ _ hik]
      rcases hor with hor | hor
      · exact hor
      · rw [hik] at hor; cases hor
    | some v =>
      rw [spread_get_some _ hwfq hik]
      rfl

theorem questionSets_union_witness :
    Obj.get (mergePost (some c8Stored) c8Incoming "t").questionSets "s1" =
      some "newSet" :=
  (questionSets_union (some c8Stored) c8Incoming "t" "s1"
    (by decide)).1 "newSet" (by decide)

/-- C1 (counterexample): with `stored.revisionProgress.alice.q1 = "A"`
and `incoming.revisionProgress.alice.q1 = "B"`, the merged value is
incoming's `"B"`, not stored's `"A"` — the code overwrites an existing
(player, item) pair, refuting first-writer-wins. -/
theorem revisionProgress_overwrite_counterexample :
    get2 (mergePost (some c1Stored) c1Incoming "t").revisionProgress
        "alice" "q1" = some "B" ∧
    get2 c1Stored.revisionProgress "alice" "q1" = some "A" ∧
    get2 (mergePost (some c1Stored) c1Incoming "t").revisionProgress
        "alice" "q1" ≠
      get2 c1Stored.revisionProgress "alice" "q1" := by
  decide

/-- C1 (amended): the revisionProgress merge is last-writer-wins: every
(player, item) pair present in `incoming` takes incoming's value in the
merged document, overwriting any stored value, and pairs absent from
`incoming` keep stored's value (`sync.js` lines 117-125, whose own
comment says incoming wins on conflicts). -/
theorem revisionProgress_incoming_wins {V : Type} (stored? : Option (Doc V))
    (incoming : Doc V) (now : String) (p k : String) (hwf : Doc.WF incoming) :
    (∀ v, get2 incoming.revisionProgress p k = some v →
      get2 (mergePost stored? incoming now).revisionProgress p k = some v) ∧
    (get2 incoming.revisionProgress p k = none →
      get2 (mergePost stored? incoming now).revisionProgress p k =
        get2 (Option.getD stored? emptyDoc).revisionProgress p k) := by
  have hwfr : Obj.WF incoming.revisionProgress := hwf.2.2.2.2.2.1
  have hwfi : ∀ kv ∈ incoming.revisionProgress, Obj.WF kv.2 :=
    hwf.2.2.2.2.2.2
  constructor
  · intro v hv
    rcases hip : Obj.get incoming.revisionProgress p with - | inner
    · simp [get2, hip] at hv
    · have hvk : Obj.get inner k = some v := by simpa [get2, hip] using hv
      have hiwf : Obj.WF inner := hwfi (p, inner) (Obj.mem_of_get hip)
      rw [get2, mergePost_revisionProgress,
        mergeRevision_get_some _ hwfr hip]
      simp only
      exact spread_get_some _ hiwf hvk
  · intro h0
    rcases hip : Obj.get incoming.revisionProgress p with - | inner
    · rw [get2, mergePost_revisionProgress,
        mergeRevision_get_none _ _ _ hip]
      rcases hsp :
          Obj.get (Option.getD stored? emptyDoc).revisionProgress p with
        - | sInner
      · simp [get2, hsp]
      · simp [get2, hsp]
    · have hk0 : Obj.get inner k = none := by simpa [get2, hip] using h0
      rw [get2, mergePost_revisionProgress,
        mergeRevision_get_some _ hwfr hip]
      simp only
      rw [spread_get_none _ _ _ hk0]
      rcases hsp :
          Obj.get (Option.getD stored? emptyDoc).revisionProgress p with
        - | sInner
      · simp [get2, hsp, Obj.get]
      · simp [get2, hsp]

theorem revisionProgress_incoming_wins_witness :
    get2 (mergePost (some c1Stored) c1Incoming "t").revisionProgress
      "alice" "q1" = some "B" :=
  (revisionProgress_incoming_wins (some c1Stored) c1Incoming "t"
    "alice" "q1" (by decide)).1 "B" (by decide)

/-- C4: a player's merged profile is incoming's exactly when the player
is absent from stored or incoming's totalXP is strictly greater;
otherwise stored's profile is kept; players only in stored pass through;
and merged XP is monotonically non-decreasing for players that existed
in stored (`sync.js` lines 88-96). -/
theorem playerProfiles_max_xp {V : Type} (stored? : Option (Doc V))
    (incoming : Doc V) (now : String) (p : String) (hwf : Doc.WF incoming)
    (_hsx : allXP (Option.getD stored? emptyDoc).playerProfiles)
    (hix : allXP incoming.playerProfiles) :
    (∀ ip, Obj.get incoming.playerProfiles p = some ip →
      (Obj.get (Option.getD stored? emptyDoc).playerProfiles p = none →
        Obj.get (mergePost stored? incoming now).playerProfiles p =
          some ip) ∧
      (∀ sp,
        Obj.get (Option.getD stored? emptyDoc).playerProfiles p = some sp →
        (Option.getD sp.totalXP 0 < Option.getD ip.totalXP 0 →
          Obj.get (mergePost stored? incoming now).playerProfiles p =
            some ip) ∧
        (¬ Option.getD sp.totalXP 0 < Option.getD ip.totalXP 0 →
          Obj.get (mergePost stored? incoming now).playerProfiles p =
            some sp) ∧
        (ip ≠ sp →
          (Obj.get (mergePost stored? incoming now).playerProfiles p =
              some ip ↔
            Option.getD sp.totalXP 0 < Option.getD ip.totalXP 0)))) ∧
    (Obj.get incoming.playerProfiles p = none →
      Obj.get (mergePost stored? incoming now).playerProfiles p =
        Obj.get (Option.getD stored? emptyDoc).playerProfiles p) ∧
    (∀ sp,
      Obj.get (Option.getD stored? emptyDoc).playerProfiles p = some sp →
      ∃ mp, Obj.get (mergePost stored? incoming now).playerProfiles p =
          some mp ∧
        Option.getD sp.totalXP 0 ≤ Option.getD mp.totalXP 0) := by
  have hwfp : Obj.WF incoming.playerProfiles := hwf.2.1
  have key : ∀ ip sp, Obj.get incoming.playerProfiles p = some ip →
      (xpGreater ip sp = true ↔
        Option.getD sp.totalXP 0 < Option.getD ip.totalXP 0) := by
    intro ip sp hip
    have hx : (ip.totalXP).isSome := hix (p, ip) (Obj.mem_of_get hip)
    rcases he : ip.totalXP with - | x
    · rw [he] at hx; simp at hx
    · simp [xpGreater, he]
  rw [mergePost_playerProfiles]
  refine ⟨?_, ?_, ?_⟩
  · intro ip hip
    have hchar := mergeProfiles_get_some
      (Option.getD stored? emptyDoc).playerProfiles hwfp hip
    constructor
    · intro hs0
      rw [hchar, hs0]
    · intro sp hsp
      have hchar2 : Obj.get (mergeProfiles
          (Option.getD stored? emptyDoc).playerProfiles
          incoming.playerProfiles) p =
          if xpGreater ip sp then some ip else some sp := by
        rw [hchar, hsp]
      refine ⟨?_, ?_, ?_⟩
      · intro hlt
        rw [hchar2, if_pos ((key ip sp hip).mpr hlt)]
      · intro hnlt
        rw [hchar2, if_neg (fun hg => hnlt ((key ip sp hip).mp hg))]
      · intro hne
        constructor
        · intro hm
          by_contra hnlt
          rw [hchar2, if_neg (fun hg => hnlt ((key ip sp hip).mp hg))] at hm
          exact hne (Option.some.inj hm).symm
        · intro hlt
          rw [hchar2, if_pos ((key ip sp hip).mpr hlt)]
  · intro h0
    exact mergeProfiles_get_none _ _ _ h0
  · intro sp hsp
    cases hip : Obj.get incoming.playerProfiles p with
    | none =>
      refine ⟨sp, ?_, le_refl _⟩
      rw [mergeProfiles_get_none _ _ _ hip]
      exact hsp
    | some ip =>
      have hchar := mergeProfiles_get_some
        (Option.getD stored? emptyDoc).playerProfiles hwfp hip
      have hchar2 : Obj.get (mergeProfiles
          (Option.getD stored? emptyDoc).playerProfiles
          incoming.playerProfiles) p =
          if xpGreater ip sp then some ip else some sp := by
        rw [hchar, hsp]
      by_cases hg : xpGreater ip sp
      · exact ⟨ip, by rw [hchar2, if_pos hg],
          le_of_lt ((key ip sp hip).mp hg)⟩
      · exact ⟨sp, by rw [hchar2, if_neg hg], le_refl _⟩

theorem playerProfiles_max_xp_witness :
    Obj.get (mergePost (some c4Stored) c4Incoming "t").playerProfiles
        "alice" = some { totalXP := some 100, rest := "pa" } ∧
    Obj.get (mergePost (some c4Stored) c4Incoming "t").playerProfiles
        "bob" = some { totalXP := some 50, rest := "pb" } := by
  constructor
  · exact (((playerProfiles_max_xp (some c4Stored) c4Incoming "t" "alice"
      (by decide) (by decide) (by decide)).1
        { totalXP := some 80, rest := "pa2" } (by decide)).2
        { totalXP := some 100, rest := "pa" } (by decide)).2.1 (by decide)
  · exact ((playerProfiles_max_xp (some c4Stored) c4Incoming "t" "bob"
      (by decide) (by decide) (by decide)).1
        { totalXP := some 50, rest := "pb" } (by decide)).1 (by decide)

/-- C5: when stored's reportedQuestions has pairwise-distinct reportIds,
the merged sequence has at most one record per reportId, starts with
stored's records in their original order (stored's copy wins on a shared
id), and appends only incoming records whose ids are new, in incoming
order (`sync.js` lines 127-135). -/
theorem reportedQuestions_dedup {V : Type} (stored? : Option (Doc V))
    (incoming : Doc V) (now : String)
    (hnd : (((Option.getD stored? emptyDoc).reportedQuestions).map
      Report.reportId).Nodup) :
    (((mergePost stored? incoming now).reportedQuestions).map
      Report.reportId).Nodup ∧
    (∃ fresh, (mergePost stored? incoming now).reportedQuestions =
        (Option.getD stored? emptyDoc).reportedQuestions ++ fresh ∧
      fresh.Sublist incoming.reportedQuestions ∧
      ∀ r ∈ fresh, ∀ s ∈ (Option.getD stored? emptyDoc).reportedQuestions,
        r.reportId ≠ s.reportId) ∧
    (∀ r ∈ incoming.reportedQuestions,
      ∃ e ∈ (mergePost stored? incoming now).reportedQuestions,
        e.reportId = r.reportId) := by
  rw [mergePost_reportedQuestions]
  exact ⟨mergeReports_nodup_ids _ _ hnd, mergeReports_structure _ _,
    mergeReports_covers _ _⟩

theorem reportedQuestions_dedup_witness :
    (((mergePost (some c5Stored) c5Incoming "t").reportedQuestions).map
      Report.reportId).Nodup ∧
    (mergePost (some c5Stored) c5Incoming "t").reportedQuestions =
      [{ reportId := "r1", content := "old" },
       { reportId := "r2", content := "x" }] := by
  have h := reportedQuestions_dedup (some c5Stored) c5Incoming "t"
    (by decide)
  exact ⟨h.1, by decide⟩

/-- C7 (counterexample): an incoming document whose reportedQuestions
sequence repeats a reportId is not reproduced verbatim when merged
against an absent stored document — the dedup loop drops the second
record, so the merged field differs from incoming's. -/
theorem empty_stored_counterexample :
    (mergePost none c7Incoming "t").reportedQuestions ≠
      c7Incoming.reportedQuestions := by
  decide

/-- C7 (amended): merging any incoming document against an absent stored
document reproduces each of incoming's mapping fields exactly, and
reproduces incoming's reportedQuestions exactly provided its reportIds
are pairwise distinct (duplicate ids inside incoming are deduplicated to
the first occurrence); omitted fields come out empty. -/
theorem mergePost_empty_stored {V : Type} (incoming : Doc V) (now : String)
    (hwf : Doc.WF incoming)
    (hrep : ((incoming.reportedQuestions).map Report.reportId).Nodup) :
    (mergePost none incoming now).questionSets = incoming.questionSets ∧
    (mergePost none incoming now).playerProfiles =
      incoming.playerProfiles ∧
    (mergePost none incoming now).dailyRevisionScores =
      incoming.dailyRevisionScores ∧
    (mergePost none incoming now).practiceHistory =
      incoming.practiceHistory ∧
    (mergePost none incoming now).revisionProgress =
      incoming.revisionProgress ∧
    (mergePost none incoming now).reportedQuestions =
      incoming.reportedQuestions := by
  refine ⟨?_, ?_, ?_, ?_, ?_, ?_⟩
  · exact spread_nil _ hwf.1
  · rw [mergePost_playerProfiles]
    rw [show (Option.getD (none : Option (Doc V)) emptyDoc).playerProfiles =
      ([] : Obj (Profile V)) from rfl]
    rw [mergeProfiles_nil]
    exact spread_nil _ hwf.2.1
  · have h := mergeDaily_disjoint incoming.dailyRevisionScores []
      hwf.2.2.1 hwf.2.2.2.1 (by simp [Obj.keys])
    simpa using h
  · have h := mergeHistory_disjoint incoming.practiceHistory []
      hwf.2.2.2.2.1 (by simp [Obj.keys])
    simpa using h
  · have h := mergeRevision_disjoint incoming.revisionProgress []
      hwf.2.2.2.2.2.1 hwf.2.2.2.2.2.2 (by simp [Obj.keys])
    simpa using h
  · have h := mergeReports_disjoint incoming.reportedQuestions [] hrep
      (by simp)
    simpa using h

theorem mergePost_empty_stored_witness :
    (mergePost none c7wIncoming "t").questionSets =
      c7wIncoming.questionSets ∧
    (mergePost none c7wIncoming "t").reportedQuestions =
      c7wIncoming.reportedQuestions :=
  ⟨(mergePost_empty_stored c7wIncoming "t" (by decide) (by decide)).1,
   (mergePost_empty_stored c7wIncoming "t" (by decide)
     (by decide)).2.2.2.2.2⟩

/-- C9: a POST always writes a complete document: the fixed identifier
is `"main"`, `lastUpdated` is the merge timestamp, and even with an
absent stored document and an incoming document that omits every field
the merged document carries all mapping fields (empty mappings) and an
empty reportedQuestions sequence. -/
theorem mergedData_shape {V : Type} (stored? : Option (Doc V))
    (incoming : Doc V) (now : String) :
    (mergePost stored? incoming now)._id = "main" ∧
    (mergePost stored? incoming now).lastUpdated = now ∧
    mergePost (none : Option (Doc V)) emptyDoc now =
      { _id := "main", questionSets := [], playerProfiles := []
        dailyRevisionScores := [], practiceHistory := []
        revisionProgress := [], reportedQuestions := []
        lastUpdated := now } :=
  ⟨rfl, rfl, rfl⟩

/-- C10: a request whose method is not GET, POST or OPTIONS gets a 405
error response and nothing is written to the store; an OPTIONS request
gets a 200 empty-body response without any database access; and every
response carries the same CORS headers. -/
theorem handler_dispatch {V : Type} (method : String)
    (stored : Option (MergedData V)) (incoming : Doc V) (now : String) :
    (method ≠ "GET" → method ≠ "POST" → method ≠ "OPTIONS" →
      (handler method stored incoming now).statusCode = 405 ∧
      (handler method stored incoming now).body = Body.methodNotAllowed ∧
      (handler method stored incoming now).dbWrite = none) ∧
    (method = "OPTIONS" →
      (handler method stored incoming now).statusCode = 200 ∧
      (handler method stored incoming now).body = Body.emptyBody ∧
      (handler method stored incoming now).dbConnected = false) ∧
    (handler method stored incoming now).headers = corsHeaders := by
  refine ⟨?_, ?_, ?_⟩
  · intro hg hp ho
    simp [handler, ho, hg, hp]
  · intro ho
    simp [handler, ho]
  · by_cases ho : method = "OPTIONS"
    · simp [handler, ho]
    · by_cases hg : method = "GET"
      · cases stored <;> simp [handler, ho, hg]
      · by_cases hp : method = "POST"
        · simp [handler, ho, hg, hp]
        · simp [handler, ho, hg, hp]

theorem handler_dispatch_witness :
    ((handler "DELETE" (none : Option (MergedData String)) emptyDoc
        "t").statusCode = 405 ∧
      (handler "DELETE" (none : Option (MergedData String)) emptyDoc
        "t").body = Body.methodNotAllowed ∧
      (handler "DELETE" (none : Option (MergedData String)) emptyDoc
        "t").dbWrite = none) ∧
    ((handler "OPTIONS" (none : Option (MergedData String)) emptyDoc
        "t").statusCode = 200 ∧
      (handler "OPTIONS" (none : Option (MergedData String)) emptyDoc
        "t").body = Body.emptyBody ∧
      (handler "OPTIONS" (none : Option (MergedData String)) emptyDoc
        "t").dbConnected = false) :=
  ⟨(handler_dispatch "DELETE" none emptyDoc "t").1 (by decide) (by decide)
      (by decide),
   (handler_dispatch "OPTIONS" none emptyDoc "t").2.1 rfl⟩

/-!  Re-merging the same incoming document is a no-op for the four
non-accumulator fields. -/

theorem xpGreater_self {V : Type} (pr : Profile V) :
    xpGreater pr pr = false := by
  rcases h : pr.totalXP with - | x
  · simp [xpGreater, h]
  · simp [xpGreater, h]

theorem mergeProfiles_idem {V : Type} (ex inc : Obj (Profile V))
    (hwf : Obj.WF inc) :
    mergeProfiles (mergeProfiles ex inc) inc = mergeProfiles ex inc := by
  apply foldl_fixed
  intro kv hkv
  have hik : Obj.get inc kv.1 = some kv.2 := Obj.get_of_mem hwf hkv
  have hchar := mergeProfiles_get_some ex hwf hik
  rcases hsp : Obj.get ex kv.1 with - | sp
  · have hm : Obj.get (mergeProfiles ex inc) kv.1 = some kv.2 := by
      rw [hchar, hsp]
    simp [hm, xpGreater_self]
  · by_cases hg : xpGreater kv.2 sp
    · have hm : Obj.get (mergeProfiles ex inc) kv.1 = some kv.2 := by
        rw [hchar, hsp]; simp [hg]
      simp [hm, xpGreater_self]
    · have hm : Obj.get (mergeProfiles ex inc) kv.1 = some sp := by
        rw [hchar, hsp]; simp [hg]
      simp [hm, hg]

theorem mergeHistory_idem {V : Type} (ex inc : Obj V) (hwf : Obj.WF inc) :
    mergeHistory (mergeHistory ex inc) inc = mergeHistory ex inc := by
  apply foldl_fixed
  intro kv hkv
  have hik : Obj.get inc kv.1 = some kv.2 := Obj.get_of_mem hwf hkv
  have hchar := mergeHistory_get_some ex hwf hik
  have hm : (Obj.get (mergeHistory ex inc) kv.1).isSome = true := by
    rw [hchar]
    rcases hS : Obj.get ex kv.1 with - | w <;> simp [hS]
  simp [hm]

theorem mergeRevision_idem {V : Type} (ex inc : Obj (Obj V))
    (hwf : Obj.WF inc) (hinner : ∀ kv ∈ inc, Obj.WF kv.2) :
    mergeRevision (mergeRevision ex inc) inc = mergeRevision ex inc := by
  apply foldl_fixed
  intro kv hkv
  have hik : Obj.get inc kv.1 = some kv.2 := Obj.get_of_mem hwf hkv
  have hiw : Obj.WF kv.2 := hinner kv hkv
  have hchar : Obj.get (mergeRevision ex inc) kv.1 =
      some (spread (Option.getD (Obj.get ex kv.1) []) kv.2) :=
    mergeRevision_get_some ex hwf hik
  have hfix : spread (spread (Option.getD (Obj.get ex kv.1) []) kv.2) kv.2 =
      spread (Option.getD (Obj.get ex kv.1) []) kv.2 := by
    apply foldl_fixed
    intro kkv hkkv
    exact Obj.set_self (spread_get_some _ hiw (Obj.get_of_mem hiw hkkv))
  show Obj.set (mergeRevision ex inc) kv.1
      (spread (Option.getD (Obj.get (mergeRevision ex inc) kv.1) []) kv.2) =
    mergeRevision ex inc
  rw [hchar, Option.getD_some, hfix]
  exact Obj.set_self hchar

theorem mergeReports_idem {V : Type} (ex inc : List (Report V)) :
    mergeReports (mergeReports ex inc) inc = mergeReports ex inc := by
  apply foldl_fixed
  intro r hr
  obtain ⟨e, he, hid⟩ := mergeReports_covers inc ex r hr
  have hany : ((mergeReports ex inc).any
      (fun s => s.reportId == r.reportId)) = true :=
    (any_reportId_eq_true _ _).mpr ⟨e, he, hid⟩
  simp [hany]

/-- C6 (counterexample): when incoming submits a daily score of 0, the
entry it addresses does not strictly increase on the second merge — both
merges leave it at 0. -/
theorem second_merge_counterexample :
    get2 (mergePost (some (mergePost none c6Incoming "t1").toDoc)
        c6Incoming "t2").dailyRevisionScores "d" "p" =
      get2 (mergePost none c6Incoming "t1").dailyRevisionScores "d" "p" ∧
    get2 (mergePost none c6Incoming "t1").dailyRevisionScores "d" "p" =
      some 0 := by
  decide

/-- C6 (amended): merging the same incoming document a second time
leaves playerProfiles, practiceHistory, revisionProgress and
reportedQuestions exactly as after the first merge, while every
dailyRevisionScores entry addressed by incoming grows by incoming's
value again — a strict increase exactly when that value is positive
(`sync.js` lines 75-135). -/
theorem mergePost_repeat {V : Type} (stored? : Option (Doc V))
    (incoming : Doc V) (t1 t2 : String) (hwf : Doc.WF incoming) :
    (mergePost (some (mergePost stored? incoming t1).toDoc) incoming
        t2).playerProfiles = (mergePost stored? incoming t1).playerProfiles ∧
    (mergePost (some (mergePost stored? incoming t1).toDoc) incoming
        t2).practiceHistory =
      (mergePost stored? incoming t1).practiceHistory ∧
    (mergePost (some (mergePost stored? incoming t1).toDoc) incoming
        t2).revisionProgress =
      (mergePost stored? incoming t1).revisionProgress ∧
    (mergePost (some (mergePost stored? incoming t1).toDoc) incoming
        t2).reportedQuestions =
      (mergePost stored? incoming t1).reportedQuestions ∧
    (∀ d p (v : Int), get2 incoming.dailyRevisionScores d p = some v →
      ∃ w : Int,
        get2 (mergePost stored? incoming t1).dailyRevisionScores d p =
          some w ∧
        get2 (mergePost (some (mergePost stored? incoming t1).toDoc)
          incoming t2).dailyRevisionScores d p = some (w + v) ∧
        (0 < v → w < w + v)) := by
  refine ⟨?_, ?_, ?_, ?_, ?_⟩
  · exact mergeProfiles_idem _ _ hwf.2.1
  · exact mergeHistory_idem _ _ hwf.2.2.2.2.1
  · exact mergeRevision_idem _ _ hwf.2.2.2.2.2.1 hwf.2.2.2.2.2.2
  · exact mergeReports_idem _ _
  · intro d p v hv
    have hwfd : Obj.WF incoming.dailyRevisionScores := hwf.2.2.1
    have hwfi : ∀ kv ∈ incoming.dailyRevisionScores, Obj.WF kv.2 :=
      hwf.2.2.2.1
    rcases hid : Obj.get incoming.dailyRevisionScores d with - | entries
    · simp [get2, hid] at hv
    · have hvp : Obj.get entries p = some v := by simpa [get2, hid] using hv
      have hewf : Obj.WF entries := hwfi (d, entries) (Obj.mem_of_get hid)
      have h1 : Obj.get (mergePost stored? incoming
          t1).dailyRevisionScores d =
          some (addScores (Option.getD (Obj.get
            (Option.getD stored? emptyDoc).dailyRevisionScores d) [])
            entries) := by
        rw [mergePost_dailyRevisionScores]
        exact mergeDaily_get_some _ hwfd hid
      have h1p := addScores_get_some (Option.getD (Obj.get
        (Option.getD stored? emptyDoc).dailyRevisionScores d) []) hewf hvp
      refine ⟨Option.getD (Obj.get (Option.getD (Obj.get
        (Option.getD stored? emptyDoc).dailyRevisionScores d) []) p) 0 + v,
        ?_, ?_, ?_⟩
      · simp [get2, h1, h1p]
      · have h2 : Obj.get (mergePost (some (mergePost stored? incoming
            t1).toDoc) incoming t2).dailyRevisionScores d =
            some (addScores (Option.getD (Obj.get (mergePost stored?
              incoming t1).dailyRevisionScores d) []) entries) := by
          rw [mergePost_dailyRevisionScores]
          exact mergeDaily_get_some _ hwfd hid
        rw [h1] at h2
        simp only [Option.getD_some] at h2
        have h2p := addScores_get_some (addScores (Option.getD (Obj.get
          (Option.getD stored? emptyDoc).dailyRevisionScores d) [])
          entries) hewf hvp
        rw [h1p] at h2p
        simp only [Option.getD_some] at h2p
        simp [get2, h2, h2p]
      · intro hv0
        linarith

theorem mergePost_repeat_witness :
    (mergePost (some (mergePost none c6wIncoming "t1").toDoc) c6wIncoming
        "t2").practiceHistory =
      (mergePost none c6wIncoming "t1").practiceHistory ∧
    get2 (mergePost (some (mergePost none c6wIncoming "t1").toDoc)
      c6wIncoming "t2").dailyRevisionScores "d" "p" = some 6 := by
  have h := mergePost_repeat none c6wIncoming "t1" "t2" (by decide)
  obtain ⟨w, hw1, hw2, -⟩ := h.2.2.2.2 "d" "p" 3 (by decide)
  refine ⟨h.2.1, ?_⟩
  have hv : get2 (mergePost none c6wIncoming
      "t1").dailyRevisionScores "d" "p" = some 3 := by decide
  rw [hv] at hw1
  have hw : w = 3 := (Option.some.inj hw1).symm
  rw [hw2, hw]
  decide

end SyncSpec
